import Mathlib

/-!
# Verification of the RAG pipeline core (proje-2main)

Shallow embedding of the core components of the repository:

* `src/components/vectorstore_manager.py` — content-signature deduplication and
  idempotent insertion into the vector store (`_get_document_signature`,
  `add_documents_to_store`).
* `src/components/reranker.py` — cross-encoder re-ranking
  (`CrossEncoderReranker.rerank`, `_score_in_batches`).
* `src/components/document_processor.py` — page extraction with font-based
  section-heading detection (`extract_pages_from_pdf`).
* `src/pipeline/rag_chain.py` — the LCEL query pipeline (`setup_rag_chain`,
  `_format_docs_with_sources`).

External capabilities (SHA-256, the cross-encoder model, the embedding model,
the LLM, ChromaDB) are modelled as parameters: arbitrary functions, or a
success flag for the fallible store insert.  Python floats (font sizes) are
modelled as rationals, relevance scores as integers; the claims under study
are order-theoretic and do not depend on rounding.
-/

namespace Proje2

/-! ## Data model: LangChain `Document`

A langchain `Document` as used by this repository: `page_content` is a string,
`metadata` carries `source`, `page` and `section` keys, any of which may be
absent (`metadata.get` with a default).  `doc.page_content or ""` is the
identity on strings (an empty string is replaced by an empty string), so
`content` is modelled as a plain string. -/

structure Doc where
  source : Option String
  page : Option Nat
  sect : Option String
  content : String
  deriving DecidableEq, Repr, Inhabited

/-- `str(doc.metadata.get("page", ""))` — the page number rendered as a string,
or the empty string when the key is absent. -/
def pageFieldStr (d : Doc) : String :=
  match d.page with
  | some n => toString n
  | none => ""

/-! ## `vectorstore_manager._get_document_signature`

```python
source = doc.metadata.get("source", "")
page = str(doc.metadata.get("page", ""))
head = (doc.page_content or "")[:200]
raw_signature = f"{source}|{page}|{head}"
return hashlib.sha256(raw_signature.encode("utf-8")).hexdigest()
```

`hashlib.sha256(...).hexdigest()` is an external deterministic function of the
encoded string; it is passed in as the parameter `sha256hex`. -/

def _get_document_signature (sha256hex : String → String) (doc : Doc) : String :=
  let source := doc.source.getD ""
  let page := pageFieldStr doc
  let head := doc.content.take 200
  sha256hex (source ++ "|" ++ page ++ "|" ++ head)

/-! ## `vectorstore_manager.add_documents_to_store`

The module state consists of the Chroma collection (a list of stored
documents), the in-memory hash index (`_hash_index`, a Python dict from
signature to `{source, page}`) and the persisted index file
(`doc_hash_index.json`).  A Python dict is modelled as an association list:
membership tests the keys, assignment overwrites an existing key in place or
appends a new one. -/

structure IndexEntry where
  source : Option String
  page : Option Nat
  deriving DecidableEq, Repr

/-- `signature in hash_index` — key membership in a Python dict. -/
def keyMem (k : String) (ix : List (String × IndexEntry)) : Bool :=
  ix.any (fun p => p.1 == k)

/-- `hash_index[sig] = entry` — Python dict assignment: overwrite the existing
key, or append the new key at the end (dicts preserve insertion order). -/
def dictInsert (k : String) (v : IndexEntry) : List (String × IndexEntry) → List (String × IndexEntry)
  | [] => [(k, v)]
  | p :: rest => if p.1 == k then (k, v) :: rest else p :: dictInsert k v rest

/-- The state touched by `add_documents_to_store`: the Chroma store, the
in-memory `_hash_index` (already loaded, as after `_load_hash_index`), and the
persisted `doc_hash_index.json` file. -/
structure StoreState where
  db : List Doc
  hashIndex : List (String × IndexEntry)
  savedIndex : List (String × IndexEntry)
  deriving DecidableEq, Repr

/-- `for doc in chunked_docs: if signature not in hash_index: docs_to_add.append(doc)` —
the sub-list of chunks whose signature is not yet indexed.  The membership test
uses the index as of the start of the call (the loop does not mutate it). -/
def docsToAdd (sha256hex : String → String) (hashIndex : List (String × IndexEntry))
    (chunked_docs : List Doc) : List Doc :=
  chunked_docs.filter (fun doc => !(keyMem (_get_document_signature sha256hex doc) hashIndex))

/-- The index-update loop
`for i, sig in enumerate(hashes_to_add): hash_index[sig] = {"source": ..., "page": ...}`:
`hashes_to_add` is the signature list parallel to `docs_to_add`. -/
def updateIndex (sha256hex : String → String) (ix : List (String × IndexEntry)) :
    List Doc → List (String × IndexEntry)
  | [] => ix
  | doc :: rest =>
      updateIndex sha256hex
        (dictInsert (_get_document_signature sha256hex doc) ⟨doc.source, doc.page⟩ ix) rest

/-- `add_documents_to_store(chunked_docs)`.

`dbOk` models the outcome of the external call `db.add_documents(docs_to_add)`:
`true` means it returns normally, `false` means it raises.  On an exception the
function logs, skips the index update and `_save_hash_index`, and returns `0`
(lines 168–171 of `vectorstore_manager.py`).  Returns the count of newly added
documents together with the post-call state. -/
def add_documents_to_store (sha256hex : String → String) (dbOk : Bool)
    (st : StoreState) (chunked_docs : List Doc) : Nat × StoreState :=
  if chunked_docs = [] then (0, st)
  else if docsToAdd sha256hex st.hashIndex chunked_docs = [] then (0, st)
  else if dbOk then
    ((docsToAdd sha256hex st.hashIndex chunked_docs).length,
     { db := st.db ++ docsToAdd sha256hex st.hashIndex chunked_docs,
       hashIndex := updateIndex sha256hex st.hashIndex
         (docsToAdd sha256hex st.hashIndex chunked_docs),
       savedIndex := updateIndex sha256hex st.hashIndex
         (docsToAdd sha256hex st.hashIndex chunked_docs) })
  else (0, st)

/-! ## `reranker.CrossEncoderReranker`

The cross-encoder model is an external capability: `model.predict` assigns one
float score per `[query, text]` pair, independently per pair and
order-preservingly (spec §6, "Relevance-scoring capability").  It is modelled
by a parameter `score : String → String → Int` applied to each pair.  Relevance
scores are modelled as integers; the sorting claims only use their order. -/

/-- The accumulation `for i in range(num_batches): ...; scores.extend(batch_scores)`:
concatenate the per-batch score lists for `i = 0, 1, ..., n-1` in order. -/
def batchesConcat (f : Nat → List Int) : Nat → List Int
  | 0 => []
  | n + 1 => batchesConcat f n ++ f n

/-- `CrossEncoderReranker._score_in_batches(query, texts)`:

```python
num_batches = math.ceil(num_texts / self.batch_size)
for i in range(num_batches):
    start_idx = i * self.batch_size
    end_idx = min((i + 1) * self.batch_size, num_texts)
    batch_pairs = [[query, texts[j]] for j in range(start_idx, end_idx)]
    if batch_pairs:
        batch_scores = self.model.predict(batch_pairs, ...)
        scores.extend(batch_scores)
return [float(s) for s in scores]
```

`texts[start:end]` is `(texts.drop start).take (end - start)`; the guard
`if batch_pairs` only skips a call on an empty list, which changes nothing
because `predict` on `[]` contributes no scores.  `math.ceil(n / b)` for
positive `b` is `(n + b - 1) / b` in natural division. -/
def _score_in_batches (score : String → String → Int) (batch_size : Nat)
    (query : String) (texts : List String) : List Int :=
  let num_texts := texts.length
  let num_batches := (num_texts + batch_size - 1) / batch_size
  batchesConcat
    (fun i =>
      let start_idx := i * batch_size
      let end_idx := min ((i + 1) * batch_size) num_texts
      let batch_pairs := ((texts.drop start_idx).take (end_idx - start_idx)).map
        (fun t => (query, t))
      batch_pairs.map (fun p => score p.1 p.2))
    num_batches

/-- The specification's reference behaviour (§4.4: batching "must not alter
scores or ordering"): form all `[query, text]` pairs and score them in a single
`model.predict` call. -/
def scoreAllPairsOnce (score : String → String → Int) (query : String)
    (texts : List String) : List Int :=
  (texts.map (fun t => (query, t))).map (fun p => score p.1 p.2)

/-- One insertion step of a stable descending sort on `(original_index, score)`
pairs: the new element `a` (which precedes every element of the already-sorted
list in the input) is placed before the first element whose score is `≤` its
own, so elements with equal scores keep their input order.  This is the unique
stable sort by score descending, i.e. the behaviour of Python's
`indexed_scores.sort(key=lambda x: x[1], reverse=True)` (Timsort is stable and
`reverse=True` does not reorder equal elements). -/
def insertDesc (a : Nat × Int) : List (Nat × Int) → List (Nat × Int)
  | [] => [a]
  | b :: l => if b.2 ≤ a.2 then a :: b :: l else b :: insertDesc a l

/-- Stable sort by score descending (see `insertDesc`). -/
def sortDesc : List (Nat × Int) → List (Nat × Int)
  | [] => []
  | a :: l => insertDesc a (sortDesc l)

/-- `list(enumerate(scores))` starting at index `k`. -/
def pyEnumFrom : Nat → List Int → List (Nat × Int)
  | _, [] => []
  | k, a :: l => (k, a) :: pyEnumFrom (k + 1) l

/-- `indexed_scores = list(enumerate(scores))`. -/
def pyEnum (scores : List Int) : List (Nat × Int) :=
  pyEnumFrom 0 scores

/-- `selected_indices = [idx for idx, score in indexed_scores[:self.top_n]]`
after the stable descending sort of `indexed_scores`. -/
def selectedIndices (top_n : Nat) (scores : List Int) : List Nat :=
  ((sortDesc (pyEnum scores)).take top_n).map Prod.fst

/-- `CrossEncoderReranker.rerank(query, docs)`:

```python
if not docs: return []
doc_contents = [d.page_content for d in docs]
scores = self._score_in_batches(query, doc_contents)
indexed_scores = list(enumerate(scores))
indexed_scores.sort(key=lambda x: x[1], reverse=True)
selected_indices = [idx for idx, score in indexed_scores[:self.top_n]]
reranked_docs = [docs[i] for i in selected_indices]
return reranked_docs
```
-/
def rerank (score : String → String → Int) (top_n batch_size : Nat)
    (query : String) (docs : List Doc) : List Doc :=
  if docs = [] then []
  else
    let doc_contents := docs.map (fun d => d.content)
    let scores := _score_in_batches score batch_size query doc_contents
    let selected := selectedIndices top_n scores
    selected.map (fun i => docs.getD i default)

/-- The specification's reference reranker: identical to `rerank` except that
all pairs are scored in one `model.predict` call (`scoreAllPairsOnce`). -/
def rerankUnbatched (score : String → String → Int) (top_n : Nat)
    (query : String) (docs : List Doc) : List Doc :=
  if docs = [] then []
  else
    let doc_contents := docs.map (fun d => d.content)
    let scores := scoreAllPairsOnce score query doc_contents
    let selected := selectedIndices top_n scores
    selected.map (fun i => docs.getD i default)

/-! ## `document_processor` — page extraction and section detection

A PDF page's text content, as seen through `page.get_text("dict")`, is a list
of text lines, each a list of spans `{text, size, flags, font}` (the block /
line nesting only matters for how `page_text` is assembled, which the model
reproduces at the line level; non-text blocks are skipped by the code and are
not part of the model).  Font sizes are Python floats, modelled as rationals.

External PDF parsing (`fitz`) is the input: a document is a list of per-page
outcomes, where an outcome is either the page's parsed content or the
exception `fitz` raises on that page. -/

structure Span where
  text : String
  size : ℚ
  flags : Nat
  font : String
  deriving DecidableEq, Repr, Inhabited

structure PageData where
  lines : List (List Span)
  deriving DecidableEq, Repr, Inhabited

/-- Python `str.lower()` restricted to the characters occurring in this
repository's section vocabulary: ASCII plus the Turkish capitals used in the
`SECTION_REGEX` keywords (`Ö`, `Ç`, `Ş`, `İ`). -/
def pyLowerChar (c : Char) : Char :=
  if c = 'Ö' then 'ö'
  else if c = 'Ç' then 'ç'
  else if c = 'Ş' then 'ş'
  else if c = 'İ' then 'i'
  else c.toLower

/-- Case-folding used for `re.IGNORECASE` matching: `str.lower()` plus the
`sre` equivalence that makes dotless `ı` match `i`/`I`. -/
def foldChar (c : Char) : Char :=
  if c = 'ı' then 'i' else pyLowerChar c

/-- Python `str.capitalize()`: first character upper-cased, the rest
lower-cased (restricted to the vocabulary's character set as above). -/
def pyUpperChar (c : Char) : Char :=
  if c = 'ö' then 'Ö'
  else if c = 'ç' then 'Ç'
  else if c = 'ş' then 'Ş'
  else if c = 'ı' then 'I'
  else c.toUpper

def pyCapitalize (s : String) : String :=
  match s.toList with
  | [] => ""
  | c :: rest => String.mk (pyUpperChar c :: rest.map pyLowerChar)

/-- Python `str.strip()`: drop leading and trailing whitespace. -/
def pyStrip (s : String) : String :=
  String.mk ((((s.toList.dropWhile Char.isWhitespace).reverse).dropWhile
    Char.isWhitespace).reverse)

/-- `"bold" in fontname` — substring search for the four characters `bold`. -/
def hasBoldAt : List Char → Bool
  | 'b' :: 'o' :: 'l' :: 'd' :: _ => true
  | _ => false

def hasBoldSub : List Char → Bool
  | [] => false
  | c :: rest => hasBoldAt (c :: rest) || hasBoldSub rest

/-- `_is_bold(span)`:
`(flags & 16) != 0 or "bold" in span.get("font", "").lower()`. -/
def _is_bold (sp : Span) : Bool :=
  sp.flags &&& 16 ≠ 0 || hasBoldSub (sp.font.toList.map pyLowerChar)

/-- The alternatives of `SECTION_REGEX`, in source order (the regex engine
tries them left to right at each candidate position). -/
def sectionKeywords : List String :=
  ["Abstract", "Özet", "Giriş", "Introduction", "Methods", "Methodology",
   "Yöntemler", "Results", "Bulgular", "Sonuçlar", "Discussion", "Tartışma",
   "Conclusion"]

/-- Does keyword `kw` match (case-insensitively) at the head of `cs`?  Each
pattern character matches exactly one text character under `re.IGNORECASE`. -/
def matchesAt (kw : String) (cs : List Char) : Bool :=
  (cs.take kw.toList.length).map foldChar == kw.toList.map foldChar

/-- At one position: the first alternative that matches, returning the matched
slice of the *text* (`match.group(0)`). -/
def matchKeywordAt (cs : List Char) : Option (List Char) :=
  match sectionKeywords.find? (fun kw => matchesAt kw cs) with
  | some kw => some (cs.take kw.toList.length)
  | none => none

/-- `SECTION_REGEX.search(text)` with `re.MULTILINE`: `^` anchors to the start
of the string and to every position following a newline; the scan returns the
leftmost match. -/
def searchAux (atLineStart : Bool) : List Char → Option (List Char)
  | [] => none
  | c :: rest =>
    if atLineStart then
      match matchKeywordAt (c :: rest) with
      | some m => some m
      | none => searchAux (c == '\n') rest
    else searchAux (c == '\n') rest

/-- `SECTION_REGEX.search(text)` followed by `match.group(0).capitalize()`:
`none` when the regex does not match. -/
def sectionSearch (text : String) : Option String :=
  (searchAux true text.toList).map (fun m => pyCapitalize (String.mk m))

/-- All spans of a page's text blocks, in reading order. -/
def pageSpans (p : PageData) : List Span :=
  p.lines.flatMap (fun ln => ln)

/-- One step of an insertion sort, ascending on rationals (`sorted(data)` used
by `statistics.median`; the order of equal sizes does not affect the median). -/
def insertAsc (a : ℚ) : List ℚ → List ℚ
  | [] => [a]
  | b :: l => if a ≤ b then a :: b :: l else b :: insertAsc a l

def sortAsc : List ℚ → List ℚ
  | [] => []
  | a :: l => insertAsc a (sortAsc l)

/-- `statistics.median(sizes)`: middle element of the sorted data for odd
length, mean of the two middle elements for even length. -/
def pyMedian (sizes : List ℚ) : ℚ :=
  let s := sortAsc sizes
  let n := s.length
  if n % 2 = 1 then s.getD (n / 2) 0
  else (s.getD (n / 2 - 1) 0 + s.getD (n / 2) 0) / 2

/-- `_get_dominant_font_stats(page)`, first component: the median span size,
with `span.get("size", 0.0)` collected over every span of every text block,
and the `10.0` default for a page with no spans.  (The second component, the
mode, is not used by the extraction loop.) -/
def dominantFontSize (p : PageData) : ℚ :=
  let sizes := (pageSpans p).map (fun sp => sp.size)
  if sizes = [] then 10 else pyMedian sizes

/-- The per-span update of `current_section` inside the extraction loop
(lines 104–119 of `document_processor.py`): skip whitespace-only spans; if the
span is bold or its size exceeds `dominant_size + 1.0`, search the section
regex and on a match replace the current section by the capitalized matched
text. -/
def detectOverSpan (threshold : ℚ) (cur : String) (sp : Span) : String :=
  let text := pyStrip sp.text
  if text = "" then cur
  else if _is_bold sp || threshold < sp.size then
    match sectionSearch text with
    | some sec => sec
    | none => cur
  else cur

/-- The section state after processing one page's spans, starting from the
incoming `current_section`: threshold is `dominant_size + 1.0`. -/
def pageSection (cur : String) (p : PageData) : String :=
  let threshold := dominantFontSize p + 1
  (pageSpans p).foldl (detectOverSpan threshold) cur

/-- Auxiliary (not from the source): the same span scan as `detectOverSpan`,
tracking the last recognized heading instead of the running section. -/
def headingStep (threshold : ℚ) (acc : Option String) (sp : Span) : Option String :=
  let text := pyStrip sp.text
  if text = "" then acc
  else if _is_bold sp || threshold < sp.size then
    match sectionSearch text with
    | some sec => some sec
    | none => acc
  else acc

/-- Auxiliary (not from the source): the last section heading recognized on
the page, if any.  `pageSection cur p = (pageHeading p).getD cur` — the page
updates the running state exactly when it contains a recognized heading. -/
def pageHeading (p : PageData) : Option String :=
  let threshold := dominantFontSize p + 1
  (pageSpans p).foldl (headingStep threshold) none

/-- `page_text` assembly: each non-empty stripped span contributes
`text + " "`, and every line contributes a trailing `"\n"`. -/
def pageText (p : PageData) : String :=
  String.join
    (p.lines.map (fun ln =>
      String.join
        (((ln.map (fun sp => pyStrip sp.text)).filter (fun t => t ≠ "")).map
          (fun t => t ++ " ")) ++ "\n"))

/-- `contains_table` heuristic: more than ten `|` or more than ten tab
characters in the page text. -/
def containsTable (p : PageData) : Bool :=
  10 < ((pageText p).toList.filter (fun c => c = '|')).length
    || 10 < ((pageText p).toList.filter (fun c => c = '\t')).length

/-- The `Document` built for one page (lines 127–137): `source` is the file's
base name, `page` is 1-based, `section` is the running state after this page's
spans. -/
def mkPageDoc (src : String) (pageNum : Nat) (sec : String) (p : PageData) : Doc :=
  { source := some src, page := some pageNum, sect := some sec,
    content := pageText p }

/-- The `for page_num, page in enumerate(doc)` loop wrapped in
`try ... except Exception: logger.error(...)` (lines 89–141): pages are
processed in order, carrying the section state; the first page whose parsing
raises aborts the loop, the exception is caught and logged, and the pages
accumulated so far are returned. -/
def extractLoop (src : String) (cur : String) (pageNum : Nat) :
    List (Except String PageData) → List Doc
  | [] => []
  | Except.error _ :: _ => []
  | Except.ok p :: rest =>
    let c := pageSection cur p
    mkPageDoc src pageNum c p :: extractLoop src c (pageNum + 1) rest

/-- `extract_pages_from_pdf(pdf_path)`: raises `FileNotFoundError` when the
file does not exist (lines 81–83); otherwise returns the processed pages —
including a *partial* list when a page-level exception was caught mid-loop.
The only way the call itself fails is the missing-file check. -/
def extract_pages_from_pdf (fileExists : Bool) (src : String)
    (pages : List (Except String PageData)) : Except String (List Doc) :=
  if !fileExists then Except.error "FileNotFoundError"
  else Except.ok (extractLoop src "Unknown" 1 pages)

/-- The per-page section labels assigned by the extraction loop, starting from
`current_section = "Unknown"` (the projection of `extractLoop` onto the
`section` metadata, for a document whose pages all parse). -/
def sectionLabelsAux (cur : String) : List PageData → List String
  | [] => []
  | p :: rest =>
    let c := pageSection cur p
    c :: sectionLabelsAux c rest

def sectionLabels (pages : List PageData) : List String :=
  sectionLabelsAux "Unknown" pages

/-! ## `rag_chain` — the LCEL query pipeline

`setup_rag_chain` wires:

```python
context_docs_chain = {"base_docs": RunnableLambda(retrieve_base_docs),
                      "question": ...} | RunnableLambda(rerank_docs)
formatted_context_chain = context_docs_chain | RunnableLambda(_format_docs_with_sources)
answer_chain = {"context": formatted_context_chain, "question": ...} | prompt | llm | StrOutputParser()
_rag_chain = RunnableParallel({"answer": answer_chain,
                               "context_docs": context_docs_chain,
                               "formatted_context": formatted_context_chain})
```

A `Runnable` is modelled as a function from the input dict to its output
*paired with the number of vector-store retrievals its execution performs*:
`RunnableParallel` and the dict-composition run every branch on the same input
independently (LangChain performs no sharing or caching of a sub-chain that
occurs in several branches), so invocation counts add up.  The external
capabilities — the retriever (`vectorstore.as_retriever(...).invoke`), the
cross-encoder and the LLM (prompt | llm | StrOutputParser) — are parameters in
`RagEnv`; all are deterministic functions of their inputs. -/

structure QueryInput where
  question : String
  sect : Option String
  deriving DecidableEq, Repr, Inhabited

structure RagEnv where
  retrieve : String → Option String → List Doc
  score : String → String → Int
  top_n : Nat
  batch_size : Nat
  llm : String → String

/-- The metadata filter computed by `retrieve_base_docs`:
`section = input_dict.get("section", "Tüm Bölümler")`, and
`search_kwargs["filter"] = {"section": section}` only when
`section and section != "Tüm Bölümler"`. -/
def sectionFilter (x : QueryInput) : Option String :=
  let s := x.sect.getD "Tüm Bölümler"
  if s ≠ "" ∧ s ≠ "Tüm Bölümler" then some s else none

/-- `retrieve_base_docs(input_dict)` — one similarity search against the
store.  The second component counts retrievals (one). -/
def retrieveBaseDocs (env : RagEnv) (x : QueryInput) : List Doc × Nat :=
  (env.retrieve x.question (sectionFilter x), 1)

/-- `context_docs_chain`: retrieve then
`rerank_docs({"question": ..., "base_docs": ...})`. -/
def contextDocsChain (env : RagEnv) (x : QueryInput) : List Doc × Nat :=
  let r := retrieveBaseDocs env x
  (rerank env.score env.top_n env.batch_size x.question r.1, r.2)

/-- `_format_docs_with_sources(docs)`, for one document at position `i`. -/
def formatDoc (i : Nat) (d : Doc) : String :=
  "--- Belge " ++ toString (i + 1) ++ " (Kaynak: " ++ d.source.getD "Bilinmiyor"
    ++ ", Sayfa: " ++ (match d.page with | some n => toString n | none => "N/A")
    ++ ", Bölüm: " ++ d.sect.getD "N/A" ++ ") ---\n" ++ d.content

/-- `_format_docs_with_sources(docs)`: the fixed sentinel on an empty list,
otherwise the per-document blocks joined by blank lines. -/
def _format_docs_with_sources (docs : List Doc) : String :=
  if docs = [] then "Sağlanan bağlamda ilgili bilgi bulunamadı."
  else String.intercalate "\n\n" (docs.mapIdx formatDoc)

/-- `formatted_context_chain = context_docs_chain | _format_docs_with_sources`. -/
def formattedContextChain (env : RagEnv) (x : QueryInput) : String × Nat :=
  let r := contextDocsChain env x
  (_format_docs_with_sources r.1, r.2)

/-- The extraction prompt (`PROMPT_TEMPLATE` with `{context}` and `{question}`
substituted); the body between the rule texts is reproduced abstractly as the
pair of its two holes, which is all the claims use. -/
def promptRender (context question : String) : String :=
  "BAĞLAM:\n---\n" ++ context ++ "\n---\n\nSORU:\n" ++ question ++ "\n"

/-- `answer_chain = {"context": formatted_context_chain, "question": ...}
| prompt | llm | StrOutputParser()`. -/
def answerChain (env : RagEnv) (x : QueryInput) : String × Nat :=
  let f := formattedContextChain env x
  (env.llm (promptRender f.1 x.question), f.2)

structure RagOutput where
  answer : String
  context_docs : List Doc
  formatted_context : String
  deriving DecidableEq, Repr

/-- The final `RunnableParallel`: each of the three branches executes on the
input independently; the total retrieval count is the sum over branches. -/
def ragChain (env : RagEnv) (x : QueryInput) : RagOutput × Nat :=
  let a := answerChain env x
  let d := contextDocsChain env x
  let f := formattedContextChain env x
  (⟨a.1, d.1, f.1⟩, a.2 + d.2 + f.2)

/-! ## Import-time semantics of `vectorstore_manager` (claim C10)

The module's top level is modelled as the sequence of names it binds, plus the
annotation expressions it evaluates.  Under Python ≤ 3.13 semantics (PEP 526),
a module-level annotated assignment `name: ann = value` evaluates `ann` at the
time of import; a `def` statement evaluates its parameter/return annotations when
the `def` executes.  Evaluating a `Name` not bound in the module or builtin
scope raises `NameError`, which aborts the import. -/

inductive PExpr where
  | name : String → PExpr
  | sub : PExpr → PExpr → PExpr
  | tup : PExpr → PExpr → PExpr
  deriving DecidableEq, Repr

/-- Left-to-right evaluation of an annotation expression: `Except.error n`
models `NameError: name 'n' is not defined`. -/
def evalAnn (env : List String) : PExpr → Except String Unit
  | PExpr.name s => if s ∈ env then Except.ok () else Except.error s
  | PExpr.sub f a => do
      evalAnn env f
      evalAnn env a
  | PExpr.tup a b => do
      evalAnn env a
      evalAnn env b

inductive PyStmt where
  | bind : String → PyStmt
  | annAssign : String → PExpr → PyStmt
  | defStmt : String → List PExpr → PyStmt
  deriving Repr

/-- Execute the module body: each statement binds its name; annotated
assignments and `def`s first evaluate their annotations, and a `NameError`
aborts the import with no further names bound. -/
def runStmts (env : List String) : List PyStmt → Except String (List String)
  | [] => Except.ok env
  | PyStmt.bind n :: rest => runStmts (env ++ [n]) rest
  | PyStmt.annAssign n ann :: rest =>
    match evalAnn env ann with
    | Except.error s => Except.error s
    | Except.ok _ => runStmts (env ++ [n]) rest
  | PyStmt.defStmt n anns :: rest =>
    match anns.foldl (fun acc a => do acc; evalAnn env a) (Except.ok ()) with
    | Except.error s => Except.error s
    | Except.ok _ => runStmts (env ++ [n]) rest

/-- The builtin names the module's annotations may refer to. -/
def pyBuiltins : List String := ["str", "int", "float", "bool"]

/-- `Optional[X]`. -/
def optAnn (x : PExpr) : PExpr := PExpr.sub (PExpr.name "Optional") x

/-- `Dict[str, Dict]`. -/
def dictStrDictAnn : PExpr :=
  PExpr.sub (PExpr.name "Dict") (PExpr.tup (PExpr.name "str") (PExpr.name "Dict"))

/-- The top level of `src/components/vectorstore_manager.py`, in source order:
the imports (lines 14–26), the module logger, the three annotated global
assignments (lines 31–33) and the function definitions with their evaluated
annotations. -/
def vectorstoreManagerStmts : List PyStmt :=
  [PyStmt.bind "os", PyStmt.bind "logging", PyStmt.bind "hashlib",
   PyStmt.bind "json",
   PyStmt.bind "List", PyStmt.bind "Optional",
   PyStmt.bind "Document", PyStmt.bind "GoogleGenerativeAIEmbeddings",
   PyStmt.bind "Chroma",
   PyStmt.bind "settings", PyStmt.bind "setup_logging", PyStmt.bind "logger",
   PyStmt.annAssign "_embeddings" (optAnn (PExpr.name "GoogleGenerativeAIEmbeddings")),
   PyStmt.annAssign "_db" (optAnn (PExpr.name "Chroma")),
   PyStmt.annAssign "_hash_index" (optAnn dictStrDictAnn),
   PyStmt.defStmt "_get_hash_index_path" [PExpr.name "str"],
   PyStmt.defStmt "_load_hash_index" [dictStrDictAnn],
   PyStmt.defStmt "_save_hash_index" [],
   PyStmt.defStmt "_get_document_signature" [PExpr.name "Document", PExpr.name "str"],
   PyStmt.defStmt "get_embeddings" [PExpr.name "GoogleGenerativeAIEmbeddings"],
   PyStmt.defStmt "get_vectorstore" [PExpr.name "Chroma"],
   PyStmt.defStmt "add_documents_to_store"
     [PExpr.sub (PExpr.name "List") (PExpr.name "Document"), PExpr.name "int"]]

/-- The result of `import src.components.vectorstore_manager`. -/
def importVectorstoreManager : Except String (List String) :=
  runStmts pyBuiltins vectorstoreManagerStmts

/-! ## Concrete inputs used by witnesses -/

/-- Selected indices of a rerank run where the pairs are scored in one call —
used to phrase the tie-break claim. -/
def rerankSelected (score : String → String → Int) (top_n : Nat)
    (query : String) (docs : List Doc) : List Nat :=
  selectedIndices top_n (scoreAllPairsOnce score query (docs.map (fun d => d.content)))

def docEx1 : Doc :=
  { source := some "a.pdf", page := some 1, sect := some "Introduction",
    content := "Cas9 nuclease cuts DNA at a target site." }

/-- Same source, page and (entire, hence first-200) text as `docEx1`, but a
different `section` metadata value. -/
def docEx2 : Doc :=
  { source := some "a.pdf", page := some 1, sect := none,
    content := "Cas9 nuclease cuts DNA at a target site." }

def docEx3 : Doc :=
  { source := some "b.pdf", page := some 2, sect := some "Methods",
    content := "We measured cleavage efficiency." }

/-- Page 1: a bold heading span `"Introduction"` over body text. -/
def pageIntro : PageData :=
  ⟨[[⟨"Introduction", 12, 16, "Times-Bold"⟩],
    [⟨"Cas9 nuclease cuts DNA at a target site.", 10, 0, "Times-Roman"⟩]]⟩

/-- Page 2: body text only, no heading candidate. -/
def pagePlain : PageData :=
  ⟨[[⟨"Plain body paragraph text.", 10, 0, "Times-Roman"⟩]]⟩

/-- Page 3: a bold heading span `"Methods"` over body text. -/
def pageMethods : PageData :=
  ⟨[[⟨"Methods", 16, 16, "Times-Bold"⟩],
    [⟨"We measured cleavage.", 10, 0, "Times-Roman"⟩]]⟩

def ragEnvEx : RagEnv :=
  { retrieve := fun _ _ => [docEx1, docEx3],
    score := fun _ t => (t.length : Int),
    top_n := 5, batch_size := 64,
    llm := fun p => p }

def queryEx : QueryInput :=
  { question := "What is Cas9?", sect := some "Introduction" }

/-! # Theorems -/

/-! ### Store lemmas (claims C1, C2) -/

theorem add_docs_nil (h : String → String) (b : Bool) (st : StoreState) :
    add_documents_to_store h b st [] = (0, st) := rfl

theorem add_docs_no_new (h : String → String) (b : Bool) (st : StoreState)
    (chunks : List Doc) (hne : chunks ≠ [])
    (hempty : docsToAdd h st.hashIndex chunks = []) :
    add_documents_to_store h b st chunks = (0, st) := by
  unfold add_documents_to_store
  rw [if_neg hne, if_pos hempty]

theorem add_docs_fail (h : String → String) (st : StoreState) (chunks : List Doc) :
    add_documents_to_store h false st chunks = (0, st) := by
  unfold add_documents_to_store
  split
  · rfl
  · split
    · rfl
    · simp

theorem add_docs_success (h : String → String) (st : StoreState) (chunks : List Doc)
    (hne : chunks ≠ []) (hnon : docsToAdd h st.hashIndex chunks ≠ []) :
    add_documents_to_store h true st chunks
      = ((docsToAdd h st.hashIndex chunks).length,
         { db := st.db ++ docsToAdd h st.hashIndex chunks,
           hashIndex := updateIndex h st.hashIndex (docsToAdd h st.hashIndex chunks),
           savedIndex := updateIndex h st.hashIndex (docsToAdd h st.hashIndex chunks) }) := by
  unfold add_documents_to_store
  rw [if_neg hne, if_neg hnon, if_pos rfl]

theorem keyMem_dictInsert (k k2 : String) (v : IndexEntry)
    (ix : List (String × IndexEntry)) (hk : keyMem k ix = true) :
    keyMem k (dictInsert k2 v ix) = true := by
  induction ix with
  | nil => simp [keyMem] at hk
  | cons p rest ih =>
    simp only [keyMem, List.any_cons, Bool.or_eq_true] at hk
    unfold dictInsert
    by_cases h2 : (p.1 == k2) = true
    · rw [if_pos h2]
      rcases hk with hk | hk
      · have h1 : p.1 = k := by simpa using hk
        have h3 : p.1 = k2 := by simpa using h2
        have hkk : k2 = k := h3 ▸ h1
        simp [keyMem, hkk]
      · simp [keyMem, hk]
    · rw [if_neg h2]
      rcases hk with hk | hk
      · simp [keyMem, hk]
      · have hih := ih hk
        simp only [keyMem, List.any_cons, Bool.or_eq_true]
        exact Or.inr (by simpa [keyMem] using hih)

theorem keyMem_dictInsert_self (k : String) (v : IndexEntry)
    (ix : List (String × IndexEntry)) :
    keyMem k (dictInsert k v ix) = true := by
  induction ix with
  | nil => simp [dictInsert, keyMem]
  | cons p rest ih =>
    unfold dictInsert
    by_cases h2 : (p.1 == k) = true
    · rw [if_pos h2]; simp [keyMem]
    · rw [if_neg h2]
      simp only [keyMem, List.any_cons, Bool.or_eq_true]
      exact Or.inr (by simpa [keyMem] using ih)

theorem keyMem_updateIndex_of_mem (h : String → String)
    (ix : List (String × IndexEntry)) (docs : List Doc) (k : String)
    (hk : keyMem k ix = true) :
    keyMem k (updateIndex h ix docs) = true := by
  induction docs generalizing ix with
  | nil => exact hk
  | cons d rest ih =>
    unfold updateIndex
    exact ih _ (keyMem_dictInsert _ _ _ _ hk)

theorem keyMem_updateIndex_self (h : String → String)
    (ix : List (String × IndexEntry)) (docs : List Doc) (d : Doc)
    (hd : d ∈ docs) :
    keyMem (_get_document_signature h d) (updateIndex h ix docs) = true := by
  induction docs generalizing ix with
  | nil => cases hd
  | cons d0 rest ih =>
    unfold updateIndex
    rcases List.mem_cons.mp hd with rfl | hmem
    · exact keyMem_updateIndex_of_mem h _ rest _ (keyMem_dictInsert_self _ _ _)
    · exact ih _ hmem

/-- After a successful insert of `chunks`, every chunk's signature is a key of
the resulting in-memory index. -/
theorem sig_mem_after_success (h : String → String) (st : StoreState)
    (chunks : List Doc) (d : Doc) (hd : d ∈ chunks) :
    keyMem (_get_document_signature h d)
      ((add_documents_to_store h true st chunks).2.hashIndex) = true := by
  have hne : chunks ≠ [] := by intro hc; rw [hc] at hd; cases hd
  by_cases hempty : docsToAdd h st.hashIndex chunks = []
  · rw [add_docs_no_new h true st chunks hne hempty]
    have := (List.filter_eq_nil_iff.mp hempty) d hd
    simp only [Bool.not_eq_true', Bool.not_eq_false] at this
    exact this
  · rw [add_docs_success h st chunks hne hempty]
    by_cases hold : keyMem (_get_document_signature h d) st.hashIndex = true
    · exact keyMem_updateIndex_of_mem h _ _ _ hold
    · have hdmem : d ∈ docsToAdd h st.hashIndex chunks := by
        unfold docsToAdd
        refine List.mem_filter.mpr ⟨hd, ?_⟩
        simp only [Bool.not_eq_true'] at hold ⊢
        simp [hold]
      exact keyMem_updateIndex_self h _ _ _ hdmem

/-- C1. Idempotent ingestion: after a successful first call of
`add_documents_to_store` on a batch, a second call with the same batch returns
`0` newly inserted and leaves the store state (collection, in-memory index and
persisted index) exactly unchanged — in particular the store size is
unchanged — because every chunk's signature is already in the Signature Index
after the first call.  `b` is the outcome the store insert *would* have on the
second call; it is irrelevant because the store is never touched. -/
theorem idempotent_second_ingestion (h : String → String) (st : StoreState)
    (batch : List Doc) (b : Bool) :
    add_documents_to_store h b (add_documents_to_store h true st batch).2 batch
      = (0, (add_documents_to_store h true st batch).2) := by
  by_cases hne : batch = []
  · subst hne
    rw [add_docs_nil, add_docs_nil]
  · apply add_docs_no_new _ _ _ _ hne
    apply List.filter_eq_nil_iff.mpr
    intro d hd
    have := sig_mem_after_success h st batch d hd
    simp [this]

/-- C2. Atomicity on store-insert failure: when the external
`db.add_documents` call raises, `add_documents_to_store` returns `0` and
leaves both the in-memory Signature Index and the persisted index file exactly
as they were, so a retry of the whole batch recomputes and attempts the same
chunks again. -/
theorem store_insert_failure_atomic (h : String → String) (st : StoreState)
    (batch : List Doc) :
    (add_documents_to_store h false st batch).1 = 0
    ∧ (add_documents_to_store h false st batch).2.hashIndex = st.hashIndex
    ∧ (add_documents_to_store h false st batch).2.savedIndex = st.savedIndex
    ∧ docsToAdd h (add_documents_to_store h false st batch).2.hashIndex batch
        = docsToAdd h st.hashIndex batch := by
  rw [add_docs_fail]
  exact ⟨rfl, rfl, rfl, rfl⟩

/-- C7. Signature determinism: the Content Signature is a deterministic
function of `(source, page, first 200 characters of text)` alone — for any
hash capability `sha256hex` (itself a function, hence identical across calls
and process restarts), two documents agreeing on source, page and the first
200 characters of their text receive the same hex digest, whatever their other
metadata or remaining text. -/
theorem signature_deterministic (sha256hex : String → String) (d1 d2 : Doc)
    (hsource : d1.source = d2.source) (hpage : d1.page = d2.page)
    (hhead : d1.content.take 200 = d2.content.take 200) :
    _get_document_signature sha256hex d1 = _get_document_signature sha256hex d2 := by
  unfold _get_document_signature pageFieldStr
  rw [hsource, hpage, hhead]

/-- Witness for C7: `docEx1` and `docEx2` share source, page and leading text
but differ in their `section` metadata; their signatures agree. -/
theorem signature_deterministic_witness :
    docEx1.source = docEx2.source ∧ docEx1.page = docEx2.page
    ∧ docEx1.content.take 200 = docEx2.content.take 200
    ∧ _get_document_signature (fun s => s) docEx1
        = _get_document_signature (fun s => s) docEx2 :=
  ⟨rfl, rfl, rfl,
   signature_deterministic (fun s => s) docEx1 docEx2 rfl rfl rfl⟩

/-- C10. Importing `src.components.vectorstore_manager` fails: only `List` and
`Optional` are imported from `typing`, yet the module-level annotated
assignment on line 33 evaluates `Optional[Dict[str, Dict]]` at import time and
hits the unbound name `Dict`, raising `NameError` — so execution never reaches
the `def` statements and no caller can use `add_documents_to_store` or
`get_vectorstore`.  The conjuncts: the import evaluates to the `NameError` for
`"Dict"`; `"List"` and `"Optional"` are bound when line 33 runs while `"Dict"`
is not; and the module body does contain the later `add_documents_to_store`
definition that is never reached. -/
theorem vectorstore_manager_import_raises_nameerror :
    importVectorstoreManager = Except.error "Dict"
    ∧ evalAnn (pyBuiltins ++ ["os", "logging", "hashlib", "json", "List",
        "Optional", "Document", "GoogleGenerativeAIEmbeddings", "Chroma",
        "settings", "setup_logging", "logger", "_embeddings", "_db"])
        (optAnn dictStrDictAnn) = Except.error "Dict"
    ∧ (∃ anns, PyStmt.defStmt "add_documents_to_store" anns ∈ vectorstoreManagerStmts) := by
  refine ⟨rfl, rfl, ?_⟩
  exact ⟨[PExpr.sub (PExpr.name "List") (PExpr.name "Document"), PExpr.name "int"],
    by simp [vectorstoreManagerStmts]⟩

/-! ### Reranker lemmas (claims C3, C4, C8) -/

theorem batchesConcat_take (score : String → String → Int) (q : String) (bs : Nat)
    (texts : List String) (k : Nat) :
    batchesConcat
      (fun i =>
        (((texts.drop (i * bs)).take (min ((i + 1) * bs) texts.length - i * bs)).map
          (fun t => (q, t))).map (fun p => score p.1 p.2)) k
      = ((texts.take (k * bs)).map (fun t => (q, t))).map (fun p => score p.1 p.2) := by
  induction k with
  | zero => simp [batchesConcat]
  | succ k ih =>
    unfold batchesConcat
    rw [ih]
    have hslice : (texts.drop (k * bs)).take (min ((k + 1) * bs) texts.length - k * bs)
        = (texts.drop (k * bs)).take bs := by
      apply List.take_eq_take.mpr
      rw [List.length_drop]
      have hmul : (k + 1) * bs = k * bs + bs := Nat.succ_mul k bs
      omega
    rw [hslice]
    have hmul : (k + 1) * bs = k * bs + bs := Nat.succ_mul k bs
    rw [hmul, List.take_add]
    simp [List.map_append]

theorem ceil_div_mul_ge (n bs : Nat) (hbs : 0 < bs) : n ≤ ((n + bs - 1) / bs) * bs := by
  have h1 := Nat.div_add_mod (n + bs - 1) bs
  have h2 : (n + bs - 1) % bs < bs := Nat.mod_lt _ hbs
  have h3 : ((n + bs - 1) / bs) * bs = bs * ((n + bs - 1) / bs) := Nat.mul_comm _ _
  omega

/-- Batching is invisible: scoring in groups of `batch_size` produces the same
score list as one call over all pairs. -/
theorem score_in_batches_eq (score : String → String → Int) (bs : Nat)
    (q : String) (texts : List String) (hbs : 0 < bs) :
    _score_in_batches score bs q texts = scoreAllPairsOnce score q texts := by
  unfold _score_in_batches scoreAllPairsOnce
  simp only []
  rw [batchesConcat_take score q bs texts ((texts.length + bs - 1) / bs)]
  rw [List.take_of_length_le (ceil_div_mul_ge texts.length bs hbs)]

theorem rerank_eq_unbatched (score : String → String → Int) (top_n bs : Nat)
    (q : String) (docs : List Doc) (hbs : 0 < bs) :
    rerank score top_n bs q docs = rerankUnbatched score top_n q docs := by
  unfold rerank rerankUnbatched
  by_cases hd : docs = []
  · simp [hd]
  · simp only [hd, if_neg]
    rw [score_in_batches_eq score bs q _ hbs]

/-- C4. Batch-scoring equivalence: `_score_in_batches` with any positive batch
size (64 by default) yields exactly the same score sequence as scoring all
`(query, text)` pairs in one `model.predict` call, and consequently the rerank
result is unchanged by batching. -/
theorem batch_scoring_equivalence (score : String → String → Int) (bs : Nat)
    (q : String) (texts : List String) (top_n : Nat) (docs : List Doc)
    (hbs : 0 < bs) :
    _score_in_batches score bs q texts = scoreAllPairsOnce score q texts
    ∧ rerank score top_n bs q docs = rerankUnbatched score top_n q docs :=
  ⟨score_in_batches_eq score bs q texts hbs, rerank_eq_unbatched score top_n bs q docs hbs⟩

/-- Witness for C4 at the default batch size 64. -/
theorem batch_scoring_equivalence_witness :
    (0 : Nat) < 64
    ∧ (_score_in_batches (fun _ t => (t.length : Int)) 64 "What is Cas9?"
          ["Cas9 cuts.", "Unrelated."]
        = scoreAllPairsOnce (fun _ t => (t.length : Int)) "What is Cas9?"
          ["Cas9 cuts.", "Unrelated."]
      ∧ rerank (fun _ t => (t.length : Int)) 5 64 "What is Cas9?" [docEx1, docEx3]
        = rerankUnbatched (fun _ t => (t.length : Int)) 5 "What is Cas9?" [docEx1, docEx3]) :=
  ⟨by decide,
   batch_scoring_equivalence (fun _ t => (t.length : Int)) 64 "What is Cas9?"
     ["Cas9 cuts.", "Unrelated."] 5 [docEx1, docEx3] (by decide)⟩

theorem mem_insertDesc (a x : Nat × Int) (l : List (Nat × Int)) :
    x ∈ insertDesc a l ↔ x = a ∨ x ∈ l := by
  induction l with
  | nil => simp [insertDesc]
  | cons b t ih =>
    unfold insertDesc
    by_cases hc : b.2 ≤ a.2
    · rw [if_pos hc]
      simp [List.mem_cons]
    · rw [if_neg hc]
      simp only [List.mem_cons, ih]
      tauto

theorem mem_sortDesc (x : Nat × Int) (l : List (Nat × Int)) :
    x ∈ sortDesc l ↔ x ∈ l := by
  induction l with
  | nil => simp [sortDesc]
  | cons a t ih =>
    unfold sortDesc
    rw [mem_insertDesc, ih, List.mem_cons]

theorem length_insertDesc (a : Nat × Int) (l : List (Nat × Int)) :
    (insertDesc a l).length = l.length + 1 := by
  induction l with
  | nil => rfl
  | cons b t ih =>
    unfold insertDesc
    by_cases hc : b.2 ≤ a.2
    · rw [if_pos hc]; rfl
    · rw [if_neg hc]
      simp [ih]

theorem length_sortDesc (l : List (Nat × Int)) : (sortDesc l).length = l.length := by
  induction l with
  | nil => rfl
  | cons a t ih =>
    unfold sortDesc
    rw [length_insertDesc, ih]
    simp

theorem perm_sortDesc (l : List (Nat × Int)) : List.Perm (sortDesc l) l := by
  induction l with
  | nil => exact List.Perm.refl _
  | cons a t ih =>
    unfold sortDesc
    have hins : ∀ (b : Nat × Int) (m : List (Nat × Int)),
        List.Perm (insertDesc b m) (b :: m) := by
      intro b m
      induction m with
      | nil => exact List.Perm.refl _
      | cons c s ihm =>
        unfold insertDesc
        by_cases hc : c.2 ≤ b.2
        · rw [if_pos hc]
        · rw [if_neg hc]
          exact (ihm.cons c).trans (List.Perm.swap b c s)
    exact (hins a (sortDesc t)).trans (ih.cons a)

/-- The descending-with-stable-ties order on `(index, score)` pairs: earlier
output means strictly higher score, or equal score and smaller original
index. -/
def scoreRel (a b : Nat × Int) : Prop :=
  b.2 < a.2 ∨ (a.2 = b.2 ∧ a.1 < b.1)

theorem pairwise_insertDesc (a : Nat × Int) (m : List (Nat × Int))
    (hm : m.Pairwise scoreRel) (ha : ∀ b ∈ m, a.2 = b.2 → a.1 < b.1) :
    (insertDesc a m).Pairwise scoreRel := by
  induction m with
  | nil => simp [insertDesc]
  | cons b l ih =>
    rcases List.pairwise_cons.mp hm with ⟨hb, hl⟩
    unfold insertDesc
    by_cases hc : b.2 ≤ a.2
    · rw [if_pos hc]
      refine List.pairwise_cons.mpr ⟨?_, hm⟩
      intro x hx
      rcases List.mem_cons.mp hx with rfl | hxl
      · rcases lt_or_eq_of_le hc with hlt | heq2
        · exact Or.inl hlt
        · exact Or.inr ⟨heq2.symm, ha x (List.mem_cons_self _ _) heq2.symm⟩
      · rcases hb x hxl with hx2 | ⟨heq2, _⟩
        · exact Or.inl (lt_of_lt_of_le hx2 hc)
        · rcases lt_or_eq_of_le hc with hlt | heqba
          · exact Or.inl (heq2 ▸ hlt)
          · refine Or.inr ⟨by rw [← heqba, heq2], ?_⟩
            have hax : a.2 = x.2 := by rw [← heqba, heq2]
            exact ha x (List.mem_cons_of_mem _ hxl) hax
    · rw [if_neg hc]
      have hab : a.2 < b.2 := lt_of_not_le hc
      refine List.pairwise_cons.mpr ⟨?_, ?_⟩
      · intro x hx
        rcases (mem_insertDesc a x l).mp hx with rfl | hxl
        · exact Or.inl hab
        · exact hb x hxl
      · exact ih hl (fun x hx hax => ha x (List.mem_cons_of_mem _ hx) hax)

theorem pairwise_sortDesc (l : List (Nat × Int))
    (h : l.Pairwise (fun a b => a.2 = b.2 → a.1 < b.1)) :
    (sortDesc l).Pairwise scoreRel := by
  induction l with
  | nil => simp [sortDesc]
  | cons a t ih =>
    rcases List.pairwise_cons.mp h with ⟨ha, ht⟩
    unfold sortDesc
    exact pairwise_insertDesc a (sortDesc t) (ih ht)
      (fun b hb => ha b ((mem_sortDesc b t).mp hb))

theorem length_pyEnumFrom (k : Nat) (l : List Int) :
    (pyEnumFrom k l).length = l.length := by
  induction l generalizing k with
  | nil => rfl
  | cons a t ih =>
    unfold pyEnumFrom
    simp [ih]

theorem fst_bound_pyEnumFrom (k : Nat) (l : List Int) (x : Nat × Int)
    (hx : x ∈ pyEnumFrom k l) : k ≤ x.1 := by
  induction l generalizing k with
  | nil => cases hx
  | cons a t ih =>
    unfold pyEnumFrom at hx
    rcases List.mem_cons.mp hx with rfl | hmem
    · exact le_refl _
    · exact le_trans (Nat.le_succ k) (ih (k + 1) hmem)

theorem pairwise_pyEnumFrom (k : Nat) (l : List Int) :
    (pyEnumFrom k l).Pairwise (fun a b => a.1 < b.1) := by
  induction l generalizing k with
  | nil => exact List.Pairwise.nil
  | cons a t ih =>
    unfold pyEnumFrom
    refine List.pairwise_cons.mpr ⟨?_, ih (k + 1)⟩
    intro x hx
    exact lt_of_lt_of_le (Nat.lt_succ_self k) (fst_bound_pyEnumFrom (k + 1) t x hx)

theorem mem_pyEnumFrom_of_lt (k i : Nat) (l : List Int) (hi : i < l.length) :
    (k + i, l.getD i 0) ∈ pyEnumFrom k l := by
  induction l generalizing k i with
  | nil => cases hi
  | cons a t ih =>
    unfold pyEnumFrom
    cases i with
    | zero => simp
    | succ m =>
      have hm : m < t.length := by simpa using hi
      have := ih (k + 1) m hm
      have harith : k + (m + 1) = (k + 1) + m := by omega
      rw [harith]
      exact List.mem_cons_of_mem _ this

theorem snd_of_mem_pyEnumFrom (k : Nat) (l : List Int) (j : Nat) (s : Int)
    (hmem : (j, s) ∈ pyEnumFrom k l) : s = l.getD (j - k) 0 := by
  induction l generalizing k with
  | nil => cases hmem
  | cons a t ih =>
    unfold pyEnumFrom at hmem
    rcases List.mem_cons.mp hmem with heq | hrest
    · have h1 : j = k := congrArg Prod.fst heq
      have h2 : s = a := congrArg Prod.snd heq
      subst h1
      simp [h2]
    · have hk1 : k + 1 ≤ j := fst_bound_pyEnumFrom (k + 1) t (j, s) hrest
      have := ih (k + 1) hrest
      have harith : j - k = (j - (k + 1)) + 1 := by omega
      rw [harith]
      simpa using this

theorem length_selectedIndices (top_n : Nat) (scores : List Int) :
    (selectedIndices top_n scores).length = min top_n scores.length := by
  unfold selectedIndices pyEnum
  rw [List.length_map, List.length_take, length_sortDesc, length_pyEnumFrom]

/-- C8. Top-N bound: the rerank output has length `min top_n docs.length`
whenever the batch size is positive (64 by default); in particular it never
exceeds `top_n`, and an empty candidate list yields the empty list (no
failure path exists — the function is total). -/
theorem rerank_top_n_bound (score : String → String → Int) (top_n bs : Nat)
    (q : String) (docs : List Doc) (hbs : 0 < bs) :
    (rerank score top_n bs q docs).length = min top_n docs.length
    ∧ (rerank score top_n bs q docs).length ≤ top_n
    ∧ rerank score top_n bs q [] = [] := by
  have hempty : rerank score top_n bs q [] = [] := by simp [rerank]
  have hlen : (rerank score top_n bs q docs).length = min top_n docs.length := by
    rw [rerank_eq_unbatched score top_n bs q docs hbs]
    unfold rerankUnbatched
    by_cases hd : docs = []
    · simp [hd]
    · rw [if_neg hd]
      rw [List.length_map, length_selectedIndices]
      unfold scoreAllPairsOnce
      rw [List.length_map, List.length_map, List.length_map]
  exact ⟨hlen, hlen ▸ Nat.min_le_left _ _, hempty⟩

/-- Witness for C8 at the defaults `top_n = 5`, `batch_size = 64`. -/
theorem rerank_top_n_bound_witness :
    (0 : Nat) < 64
    ∧ ((rerank (fun _ t => (t.length : Int)) 5 64 "What is Cas9?"
          [docEx1, docEx3]).length = min 5 [docEx1, docEx3].length
      ∧ (rerank (fun _ t => (t.length : Int)) 5 64 "What is Cas9?"
          [docEx1, docEx3]).length ≤ 5
      ∧ rerank (fun _ t => (t.length : Int)) 5 64 "What is Cas9?" [] = []) :=
  ⟨by decide,
   rerank_top_n_bound (fun _ t => (t.length : Int)) 5 64 "What is Cas9?"
     [docEx1, docEx3] (by decide)⟩

theorem getD_lt {α : Type _} (l : List α) (d : α) (n : Nat) (h : n < l.length) :
    l.getD n d = l.get ⟨n, h⟩ := by
  rw [List.getD_eq_getElem?_getD, List.getElem?_eq_getElem h]
  rfl

/-- Core stability of the sorted index selection: if positions `i < j` carry
equal scores and `j` is among the selected indices, then `i` is selected at an
earlier output position. -/
theorem selectedIndices_stable (top_n : Nat) (scores : List Int) (i j : Nat)
    (hij : i < j) (hj : j < scores.length)
    (heq : scores.getD i 0 = scores.getD j 0) :
    ∀ q2, ∀ hq : q2 < (selectedIndices top_n scores).length,
      (selectedIndices top_n scores).get ⟨q2, hq⟩ = j →
      ∃ p, ∃ hp : p < (selectedIndices top_n scores).length,
        p < q2 ∧ (selectedIndices top_n scores).get ⟨p, hp⟩ = i := by
  intro q2 hq hgetj
  have hi : i < scores.length := Nat.lt_trans hij hj
  have hpairenum : (pyEnum scores).Pairwise (fun a b => a.2 = b.2 → a.1 < b.1) := by
    have h0 := pairwise_pyEnumFrom 0 scores
    exact h0.imp (fun {a b} (h : a.1 < b.1) _ => h)
  have hpair : (sortDesc (pyEnum scores)).Pairwise scoreRel := pairwise_sortDesc _ hpairenum
  have hlenS : (sortDesc (pyEnum scores)).length = scores.length := by
    rw [length_sortDesc]
    unfold pyEnum
    exact length_pyEnumFrom 0 scores
  have hq' : q2 < min top_n scores.length := by
    rw [length_selectedIndices] at hq
    exact hq
  have hq2S : q2 < (sortDesc (pyEnum scores)).length := by
    rw [hlenS]
    exact (lt_min_iff.mp hq').2
  have hq2T : q2 < top_n := (lt_min_iff.mp hq').1
  have hselst : selectedIndices top_n scores
      = ((sortDesc (pyEnum scores)).take top_n).map Prod.fst := rfl
  have hqT : q2 < (((sortDesc (pyEnum scores)).take top_n).map Prod.fst).length := by
    rw [List.length_map, List.length_take]
    exact lt_min_iff.mpr ⟨hq2T, hq2S⟩
  have hselD : (selectedIndices top_n scores).getD q2 0 = j := by
    rw [getD_lt _ _ _ hq]
    exact hgetj
  have hmapD : (((sortDesc (pyEnum scores)).take top_n).map Prod.fst).getD q2 0
      = ((sortDesc (pyEnum scores)).getD q2 (0, 0)).1 := by
    rw [getD_lt _ _ _ hqT, getD_lt _ _ _ hq2S]
    simp
  have hfst : ((sortDesc (pyEnum scores)).getD q2 (0, 0)).1 = j := by
    rw [← hmapD, ← hselst]
    exact hselD
  have hmemq2 : (sortDesc (pyEnum scores)).getD q2 (0, 0) ∈ pyEnum scores := by
    apply (mem_sortDesc _ _).mp
    rw [getD_lt _ _ _ hq2S]
    exact List.get_mem _ _ _
  have hsnd : ((sortDesc (pyEnum scores)).getD q2 (0, 0)).2 = scores.getD j 0 := by
    have hpm : (((sortDesc (pyEnum scores)).getD q2 (0, 0)).1,
        ((sortDesc (pyEnum scores)).getD q2 (0, 0)).2) ∈ pyEnumFrom 0 scores := by
      simpa [pyEnum] using hmemq2
    rw [hfst] at hpm
    have := snd_of_mem_pyEnumFrom 0 scores j _ hpm
    simpa using this
  have hq2pair : (sortDesc (pyEnum scores)).getD q2 (0, 0) = (j, scores.getD j 0) :=
    Prod.ext hfst hsnd
  have hmemiS : (i, scores.getD i 0) ∈ sortDesc (pyEnum scores) := by
    apply (mem_sortDesc _ _).mpr
    have := mem_pyEnumFrom_of_lt 0 i scores hi
    simpa [pyEnum] using this
  obtain ⟨p, hpS, hgetp⟩ := List.getElem_of_mem hmemiS
  have hgetpD : (sortDesc (pyEnum scores)).getD p (0, 0) = (i, scores.getD i 0) := by
    rw [getD_lt _ _ _ hpS, List.get_eq_getElem]
    exact hgetp
  have hpne : p ≠ q2 := by
    intro hpq
    rw [hpq, hq2pair] at hgetpD
    have hji : j = i := congrArg Prod.fst hgetpD
    omega
  have hplt : p < q2 := by
    rcases Nat.lt_or_ge p q2 with hlt | hge
    · exact hlt
    · exfalso
      have hq2p : q2 < p := Nat.lt_of_le_of_ne hge (fun he => hpne he.symm)
      have hrel := List.pairwise_iff_get.mp hpair ⟨q2, hq2S⟩ ⟨p, hpS⟩ hq2p
      rw [← getD_lt _ _ _ hq2S, ← getD_lt _ _ _ hpS] at hrel
      rw [hq2pair, hgetpD] at hrel
      unfold scoreRel at hrel
      rcases hrel with hlt2 | ⟨_, hji⟩
      · rw [heq] at hlt2
        exact absurd hlt2 (lt_irrefl _)
      · omega
  have hpmin : p < min top_n scores.length := Nat.lt_trans hplt hq'
  have hpsel : p < (selectedIndices top_n scores).length := by
    rw [length_selectedIndices]
    exact hpmin
  refine ⟨p, hpsel, hplt, ?_⟩
  have hpS2 : p < (sortDesc (pyEnum scores)).length := by
    rw [hlenS]
    exact (lt_min_iff.mp hpmin).2
  have hpT : p < (((sortDesc (pyEnum scores)).take top_n).map Prod.fst).length := by
    rw [List.length_map, List.length_take]
    exact lt_min_iff.mpr ⟨(lt_min_iff.mp hpmin).1, hpS2⟩
  have hmapDp : (((sortDesc (pyEnum scores)).take top_n).map Prod.fst).getD p 0
      = ((sortDesc (pyEnum scores)).getD p (0, 0)).1 := by
    rw [getD_lt _ _ _ hpT, getD_lt _ _ _ hpS]
    simp
  rw [← getD_lt _ _ _ hpsel, hselst, hmapDp, hgetpD]

theorem scoreAllPairsOnce_length (score : String → String → Int) (q : String)
    (texts : List String) : (scoreAllPairsOnce score q texts).length = texts.length := by
  simp [scoreAllPairsOnce]

theorem scoreAllPairsOnce_getD (score : String → String → Int) (q : String)
    (docs : List Doc) (n : Nat) (h : n < docs.length) :
    (scoreAllPairsOnce score q (docs.map (fun d => d.content))).getD n 0
      = score q (docs.getD n default).content := by
  have hlen : n < (scoreAllPairsOnce score q (docs.map (fun d => d.content))).length := by
    rw [scoreAllPairsOnce_length, List.length_map]
    exact h
  rw [getD_lt _ _ _ hlen, getD_lt _ _ _ h]
  simp [scoreAllPairsOnce]

/-- C3. Rerank tie-break stability: `indexed_scores.sort(key=..., reverse=True)`
is a stable descending sort, so two candidates at input positions `i < j` with
equal cross-encoder scores keep their relative order — whenever `j` occurs in
the selected indices at some output position, `i` occurs at a strictly earlier
one.  The first conjunct pins the rerank output to the selected-index map (the
whole computation is a pure function of `(query, docs)`, so repeated reranking
trivially yields the same output). -/
theorem rerank_tie_break_stable (score : String → String → Int)
    (top_n batch_size : Nat) (query : String) (docs : List Doc)
    (hbs : 0 < batch_size) (i j : Nat) (hij : i < j) (hj : j < docs.length)
    (heq : score query (docs.getD i default).content
         = score query (docs.getD j default).content) :
    rerank score top_n batch_size query docs
      = (rerankSelected score top_n query docs).map (fun k => docs.getD k default)
    ∧ ∀ q2, ∀ hq : q2 < (rerankSelected score top_n query docs).length,
        (rerankSelected score top_n query docs).get ⟨q2, hq⟩ = j →
        ∃ p, ∃ hp : p < (rerankSelected score top_n query docs).length,
          p < q2 ∧ (rerankSelected score top_n query docs).get ⟨p, hp⟩ = i := by
  have hdocs : docs ≠ [] := by
    intro h0
    rw [h0] at hj
    cases hj
  constructor
  · rw [rerank_eq_unbatched score top_n batch_size query docs hbs]
    unfold rerankUnbatched rerankSelected
    rw [if_neg hdocs]
  · have hjlen : j < (scoreAllPairsOnce score query (docs.map (fun d => d.content))).length := by
      rw [scoreAllPairsOnce_length, List.length_map]
      exact hj
    have heq2 : (scoreAllPairsOnce score query (docs.map (fun d => d.content))).getD i 0
        = (scoreAllPairsOnce score query (docs.map (fun d => d.content))).getD j 0 := by
      rw [scoreAllPairsOnce_getD score query docs i (Nat.lt_trans hij hj),
        scoreAllPairsOnce_getD score query docs j hj]
      exact heq
    unfold rerankSelected
    exact selectedIndices_stable top_n _ i j hij hjlen heq2

/-- Witness for C3: two candidates with identical (constant) scores at input
positions 0 and 1, default `top_n = 5`, batch size 64. -/
theorem rerank_tie_break_stable_witness :
    (0 : Nat) < 64 ∧ (0 : Nat) < 1 ∧ (1 : Nat) < [docEx1, docEx3].length
    ∧ (rerank (fun _ _ => (0 : Int)) 5 64 "q" [docEx1, docEx3]
        = (rerankSelected (fun _ _ => (0 : Int)) 5 "q" [docEx1, docEx3]).map
            (fun k => [docEx1, docEx3].getD k default)
      ∧ ∀ q2, ∀ hq : q2 < (rerankSelected (fun _ _ => (0 : Int)) 5 "q"
            [docEx1, docEx3]).length,
          (rerankSelected (fun _ _ => (0 : Int)) 5 "q" [docEx1, docEx3]).get ⟨q2, hq⟩ = 1 →
          ∃ p, ∃ hp : p < (rerankSelected (fun _ _ => (0 : Int)) 5 "q"
              [docEx1, docEx3]).length,
            p < q2 ∧ (rerankSelected (fun _ _ => (0 : Int)) 5 "q"
              [docEx1, docEx3]).get ⟨p, hp⟩ = 0) :=
  ⟨by decide, by decide, by decide,
   rerank_tie_break_stable (fun _ _ => (0 : Int)) 5 64 "q" [docEx1, docEx3]
     (by decide) 0 1 (by decide) (by decide) rfl⟩

/-! ### Section-detection lemmas (claims C6, C9) -/

theorem detect_step_getD (thr : ℚ) (acc : Option String) (cur : String) (sp : Span) :
    detectOverSpan thr (acc.getD cur) sp = (headingStep thr acc sp).getD cur := by
  simp only [detectOverSpan, headingStep]
  by_cases h1 : pyStrip sp.text = ""
  · simp [h1]
  · rw [if_neg h1, if_neg h1]
    by_cases h2 : (_is_bold sp || decide (thr < sp.size)) = true
    · rw [if_pos h2, if_pos h2]
      cases hs : sectionSearch (pyStrip sp.text) <;> simp [hs]
    · rw [if_neg h2, if_neg h2]

theorem foldl_heading_getD (thr : ℚ) (spans : List Span) :
    ∀ (acc : Option String) (cur : String),
      spans.foldl (detectOverSpan thr) (acc.getD cur)
        = (spans.foldl (headingStep thr) acc).getD cur := by
  induction spans with
  | nil => intro acc cur; rfl
  | cons sp rest ih =>
    intro acc cur
    simp only [List.foldl_cons]
    rw [detect_step_getD thr acc cur sp]
    exact ih (headingStep thr acc sp) cur

/-- A page updates the running section state exactly to its last recognized
heading, and leaves it alone when it has none. -/
theorem pageSection_eq_heading (cur : String) (p : PageData) :
    pageSection cur p = (pageHeading p).getD cur := by
  unfold pageSection pageHeading
  have h := foldl_heading_getD (dominantFontSize p + 1) (pageSpans p) none cur
  simpa using h

theorem length_sectionLabelsAux (cur : String) (pages : List PageData) :
    (sectionLabelsAux cur pages).length = pages.length := by
  induction pages generalizing cur with
  | nil => rfl
  | cons p rest ih =>
    simp only [sectionLabelsAux, List.length_cons]
    rw [ih]

theorem sectionLabelsAux_getD_succ (pages : List PageData) :
    ∀ (cur : String) (k : Nat), k + 1 < pages.length →
      (sectionLabelsAux cur pages).getD (k + 1) ""
        = pageSection ((sectionLabelsAux cur pages).getD k "")
            (pages.getD (k + 1) default) := by
  induction pages with
  | nil =>
    intro cur k hk
    simp at hk
  | cons p rest ih =>
    intro cur k hk
    cases k with
    | zero =>
      cases rest with
      | nil => simp at hk
      | cons r rest2 =>
        simp [sectionLabelsAux]
    | succ m =>
      have hm : m + 1 < rest.length := by
        simp only [List.length_cons] at hk
        omega
      have h := ih (pageSection cur p) m hm
      simpa [sectionLabelsAux] using h

/-- A span whose stripped text matches no vocabulary entry never changes the
tracked heading, whatever the threshold and the span's font. -/
theorem headingStep_skip (thr : ℚ) (acc : Option String) (sp : Span)
    (hne : pyStrip sp.text ≠ "")
    (hs : sectionSearch (pyStrip sp.text) = none) :
    headingStep thr acc sp = acc := by
  simp only [headingStep]
  rw [if_neg hne, hs]
  exact ite_self acc

/-- A bold span whose stripped text matches the vocabulary sets the tracked
heading (the size test is short-circuited by boldness). -/
theorem headingStep_bold_match (thr : ℚ) (acc : Option String) (sp : Span)
    (hne : pyStrip sp.text ≠ "") (hb : _is_bold sp = true) (sec : String)
    (hs : sectionSearch (pyStrip sp.text) = some sec) :
    headingStep thr acc sp = some sec := by
  simp only [headingStep]
  rw [if_neg hne, hb, Bool.true_or, if_pos rfl, hs]

theorem pageHeading_pageIntro : pageHeading pageIntro = some "Introduction" := by
  have hspans : pageSpans pageIntro
      = [⟨"Introduction", 12, 16, "Times-Bold"⟩,
         ⟨"Cas9 nuclease cuts DNA at a target site.", 10, 0, "Times-Roman"⟩] := rfl
  unfold pageHeading
  rw [hspans]
  simp only [List.foldl_cons, List.foldl_nil]
  rw [headingStep_skip _ _ _ (by decide) (by decide)]
  rw [headingStep_bold_match _ _ _ (by decide) (by decide) "Introduction" (by decide)]

theorem pageHeading_pagePlain : pageHeading pagePlain = none := by
  have hspans : pageSpans pagePlain
      = [⟨"Plain body paragraph text.", 10, 0, "Times-Roman"⟩] := rfl
  unfold pageHeading
  rw [hspans]
  simp only [List.foldl_cons, List.foldl_nil]
  rw [headingStep_skip _ _ _ (by decide) (by decide)]

theorem pageHeading_pageMethods : pageHeading pageMethods = some "Methods" := by
  have hspans : pageSpans pageMethods
      = [⟨"Methods", 16, 16, "Times-Bold"⟩,
         ⟨"We measured cleavage.", 10, 0, "Times-Roman"⟩] := rfl
  unfold pageHeading
  rw [hspans]
  simp only [List.foldl_cons, List.foldl_nil]
  rw [headingStep_skip _ _ _ (by decide) (by decide)]
  rw [headingStep_bold_match _ _ _ (by decide) (by decide) "Methods" (by decide)]

/-- The spec's three-page example, computed. -/
theorem labels_example :
    sectionLabels [pageIntro, pagePlain, pageMethods]
      = ["Introduction", "Introduction", "Methods"] := by
  simp only [sectionLabels, sectionLabelsAux, pageSection_eq_heading,
    pageHeading_pageIntro, pageHeading_pagePlain, pageHeading_pageMethods,
    Option.getD_some, Option.getD_none]

/-- The extraction loop's per-page `section` metadata is exactly the running
label sequence, for a document whose pages all parse. -/
theorem extractLoop_sections (src : String) (pgs : List PageData) :
    ∀ (cur : String) (n : Nat),
      (extractLoop src cur n (pgs.map Except.ok)).map (fun d => d.sect)
        = (sectionLabelsAux cur pgs).map some := by
  induction pgs with
  | nil => intro cur n; rfl
  | cons p rest ih =>
    intro cur n
    simp only [List.map_cons, extractLoop, sectionLabelsAux]
    rw [ih (pageSection cur p) (n + 1)]
    rfl

/-- C6. Section continuity: processing a document page by page, the section
state starts as `"Unknown"` and is updated only by a recognized heading (a
bold span, or one larger than the page's median size + 1.0, matching the
section vocabulary); the label then persists on following pages until the next
match.  Conjuncts: (1) the section metadata written by
`extract_pages_from_pdf` is the running label sequence; (2) the spec's example
`[heading "Introduction", no heading, heading "Methods"]` is labelled
`["Introduction", "Introduction", "Methods"]`; (3) a page with no recognized
heading keeps the previous page's label; (4) until a first heading is matched
the label is the initial `"Unknown"`. -/
theorem section_continuity :
    (∀ (src : String) (pgs : List PageData),
      ((extract_pages_from_pdf true src (pgs.map Except.ok)).toOption.getD []).map
          (fun d => d.sect)
        = (sectionLabels pgs).map some)
    ∧ sectionLabels [pageIntro, pagePlain, pageMethods]
        = ["Introduction", "Introduction", "Methods"]
    ∧ (∀ (pages : List PageData) (k : Nat), k + 1 < pages.length →
        pageHeading (pages.getD (k + 1) default) = none →
        (sectionLabels pages).getD (k + 1) "" = (sectionLabels pages).getD k "")
    ∧ (∀ (p : PageData) (rest : List PageData), pageHeading p = none →
        (sectionLabels (p :: rest)).getD 0 "" = "Unknown") := by
  refine ⟨?_, ?_, ?_, ?_⟩
  · intro src pgs
    unfold extract_pages_from_pdf sectionLabels
    simp only [Bool.not_true, if_neg, Except.toOption, Option.getD_some]
    exact extractLoop_sections src pgs "Unknown" 1
  · exact labels_example
  · intro pages k hk hnone
    unfold sectionLabels
    rw [sectionLabelsAux_getD_succ pages "Unknown" k hk,
      pageSection_eq_heading, hnone]
    rfl
  · intro p rest hnone
    unfold sectionLabels sectionLabelsAux
    simp only [List.getD_cons_zero]
    rw [pageSection_eq_heading, hnone]
    rfl

/-- Witness for C6: on the three-page example, page 2 has no heading and keeps
page 1's label, and a document starting with a heading-free page is labelled
`"Unknown"`. -/
theorem section_continuity_witness :
    (sectionLabels [pageIntro, pagePlain, pageMethods]).getD 1 ""
        = (sectionLabels [pageIntro, pagePlain, pageMethods]).getD 0 ""
    ∧ (sectionLabels [pagePlain]).getD 0 "" = "Unknown" :=
  ⟨section_continuity.2.2.1 [pageIntro, pagePlain, pageMethods] 0 (by decide)
     pageHeading_pagePlain,
   section_continuity.2.2.2 pagePlain [] pageHeading_pagePlain⟩

theorem extractLoop_length_lt (src : String) (pages : List (Except String PageData)) :
    ∀ (cur : String) (n : Nat) (e : String), Except.error e ∈ pages →
      (extractLoop src cur n pages).length < pages.length := by
  induction pages with
  | nil =>
    intro cur n e he
    cases he
  | cons r rest ih =>
    intro cur n e he
    cases r with
    | error s => simp [extractLoop]
    | ok p =>
      have hmem : Except.error e ∈ rest := by
        rcases List.mem_cons.mp he with heq | hmem2
        · simp at heq
        · exact hmem2
      simp only [extractLoop, List.length_cons]
      exact Nat.succ_lt_succ (ih (pageSection cur p) (n + 1) e hmem)

/-- C9 counterexample: a two-page document whose second page raises during
parsing.  `extract_pages_from_pdf` catches the exception (lines 139–141),
returns the one successfully processed page as an `Except.ok` — an apparent
success carrying a partial page list — instead of propagating the error. -/
theorem extraction_failure_swallowed_cex :
    extract_pages_from_pdf true "a.pdf"
        [Except.ok pagePlain, Except.error "fitz page error"]
      = Except.ok [mkPageDoc "a.pdf" 1 "Unknown" pagePlain]
    ∧ ([mkPageDoc "a.pdf" 1 "Unknown" pagePlain].length
        < ([Except.ok pagePlain, Except.error "fitz page error"]
            : List (Except String PageData)).length) := by
  constructor
  · have h2 : extractLoop "a.pdf" "Unknown" 1
        [Except.ok pagePlain, Except.error "fitz page error"]
        = [mkPageDoc "a.pdf" 1 (pageSection "Unknown" pagePlain) pagePlain] := rfl
    have h1 : extract_pages_from_pdf true "a.pdf"
        [Except.ok pagePlain, Except.error "fitz page error"]
        = Except.ok (extractLoop "a.pdf" "Unknown" 1
            [Except.ok pagePlain, Except.error "fitz page error"]) := rfl
    rw [h1, h2, pageSection_eq_heading, pageHeading_pagePlain]
    rfl
  · decide

/-- C9 amended: only the missing-file check propagates
(`FileNotFoundError` before the page loop); a page-level error mid-loop is
caught and logged, and the function returns the pages processed so far as an
apparent success — a list strictly shorter than the document.  Quarantine
happens only when the *task* layer later raises (e.g. the returned list is
empty); the extraction stage itself writes no error outcome. -/
theorem extraction_failure_amended (src : String)
    (pages : List (Except String PageData)) :
    extract_pages_from_pdf false src pages = Except.error "FileNotFoundError"
    ∧ (∀ e, Except.error e ∈ pages →
        ∃ docs, extract_pages_from_pdf true src pages = Except.ok docs
          ∧ docs.length < pages.length) := by
  constructor
  · rfl
  · intro e he
    refine ⟨extractLoop src "Unknown" 1 pages, rfl, ?_⟩
    exact extractLoop_length_lt src pages "Unknown" 1 e he

/-- Witness for the amended C9 on the concrete two-page document. -/
theorem extraction_failure_amended_witness :
    extract_pages_from_pdf false "a.pdf"
        [Except.ok pagePlain, Except.error "fitz page error"]
      = Except.error "FileNotFoundError"
    ∧ ∃ docs, extract_pages_from_pdf true "a.pdf"
          [Except.ok pagePlain, Except.error "fitz page error"]
        = Except.ok docs
        ∧ docs.length < ([Except.ok pagePlain, Except.error "fitz page error"]
            : List (Except String PageData)).length :=
  ⟨(extraction_failure_amended "a.pdf"
      [Except.ok pagePlain, Except.error "fitz page error"]).1,
   (extraction_failure_amended "a.pdf"
      [Except.ok pagePlain, Except.error "fitz page error"]).2 "fitz page error"
     (List.mem_cons_of_mem _ (List.mem_cons_self _ _))⟩

/-- C5 counterexample: in the LCEL chain built by `setup_rag_chain`, the
`RunnableParallel` branches each execute `context_docs_chain` independently —
one query performs three base retrievals (one inside `answer`, one for
`context_docs`, one for `formatted_context`), not one shared invocation. -/
theorem retrieval_invoked_three_times :
    (ragChain ragEnvEx queryEx).2 = 3 := rfl

/-- C5 amended: the three branches share the chain *definition*, and each
re-executes it (three retrieval/rerank runs per query); because retrieval,
reranking, formatting and generation are deterministic functions of the input,
the three outputs are nevertheless mutually consistent: `formatted_context` is
exactly the formatting of `context_docs`, `context_docs` is the shared
RETRIEVE→RERANK result, and `answer` is generated from that same formatted
context. -/
theorem rag_outputs_consistent (env : RagEnv) (x : QueryInput) :
    (ragChain env x).1.formatted_context
      = _format_docs_with_sources ((ragChain env x).1.context_docs)
    ∧ (ragChain env x).1.answer
      = env.llm (promptRender ((ragChain env x).1.formatted_context) x.question)
    ∧ (ragChain env x).1.context_docs
      = rerank env.score env.top_n env.batch_size x.question
          (env.retrieve x.question (sectionFilter x))
    ∧ (ragChain env x).2 = 3 :=
  ⟨rfl, rfl, rfl, rfl⟩

end Proje2
